import Mathlib

/-!
Verification development for the volar embedded-document mapping core.

The TypeScript sources embedded here are, from `src/`:
`packages/language-service/src/languageFeatures/callHierarchy.ts`
(the `SourceMap` subclass, `TeleportSourceMap`, `parseSourceFileDocuments`,
the call-hierarchy feature with `transformCallHierarchyItem`,
`getIncomingCalls`, `getOutgoingCalls`) and
`packages/pug-language-service/src/services/hover.ts`.

Text documents are modelled as pure offset spaces: `positionAt` and
`offsetAt` are mutually inverse in the source, so positions are represented
directly by their integer offsets.  Offsets and range endpoints are `Int`.
-/

namespace Volar

/-- A half-open offset range `[start, stop)` into a document's text.
`stop` stands for the source's `end` field (a Lean keyword). -/
structure Rng where
  start : Int
  stop : Int
deriving DecidableEq, Repr

/-- One mapping-table entry: a source-side range, a generated-side range and
an opaque metadata payload, exactly as in `Mapping<Data>` of
`@volar/source-map` used throughout `callHierarchy.ts`. -/
structure Mapping (D : Type) where
  sourceRange : Rng
  generatedRange : Rng
  data : D
deriving DecidableEq, Repr

/-- Which of a mapping's two ranges an operation reads; stands for the
string keys `'sourceRange'` / `'generatedRange'` passed around in the
source. -/
inductive RangeKey where
  | sourceRange
  | generatedRange
deriving DecidableEq, Repr, BEq

def Mapping.rng (m : Mapping D) : RangeKey → Rng
  | .sourceRange => m.sourceRange
  | .generatedRange => m.generatedRange

/-- The `'left' | 'right'` baseOffset parameter of the position APIs. -/
inductive Bias where
  | left
  | right
deriving DecidableEq, Repr, BEq

/-- The `baseOffset === 'right'` test used throughout the source. -/
def Bias.isRight : Bias → Bool
  | .left => false
  | .right => true

/-- A text document snapshot, reduced to its identity and text (positions
are offsets, see the file comment). -/
structure TextDoc where
  uri : String
  text : String
deriving DecidableEq, Repr

/-- `SourceMap` of `callHierarchy.ts`: the two document snapshots plus the
mapping table. -/
structure SourceMap (D : Type) where
  sourceDocument : TextDoc
  mappedDocument : TextDoc
  mappings : List (Mapping D)
deriving DecidableEq, Repr

/-- Modelled from the spec: `SourceMapBase.matchOffset` of the
`@volar/source-map` package is code of this repository that is not under
`src/` (only its subclass `SourceMap` in `callHierarchy.ts` is).  Per
spec 4.1 and 7, an entry matches when its origin-side range contains the
offset — closed at both endpoints, which is what the spec's range
algorithm (both endpoints of an exactly covered range must resolve) and
its dispatch example (a query at an entry's start offset must dispatch)
require, zero-length entries matching at their single point; the
translation is the linear offset shift within the matched entry anchored
at the range starts, which is what makes the spec's step-1 ranges
"internally consistent by construction"; the right-bias length adjustment
is applied by the caller `toPositions` in `callHierarchy.ts` itself.  The
translated offset must fall inside the destination range or the entry
yields nothing. -/
def matchOffset (pos : Int) (frmR : Rng) (toR : Rng) (baseOnRight : Bool) : Option Int :=
  if frmR.start ≤ pos ∧ pos ≤ frmR.stop then
    let offset := toR.start + (pos - frmR.start)
    if toR.start ≤ offset ∧ offset ≤ toR.stop then some offset else none
  else none

/-- Modelled from the spec: `SourceMapBase.matcing` (sic) of
`@volar/source-map`, the table scan used by `toPositions`: every entry, in
table order, whose origin-side range accepts the offset, paired with its
translated offset (spec 4.1: "all matching translations", table order as
the deterministic tie-break). -/
def matcing (sm : SourceMap D) (startOffset : Int) (frm : RangeKey) (toKey : RangeKey) (baseOnRight : Bool) : List (Int × Mapping D) :=
  sm.mappings.filterMap fun mp =>
    (matchOffset startOffset (mp.rng frm) (mp.rng toKey) baseOnRight).map fun o => (o, mp)

/-- The right-bias offset adjustment applied verbatim in
`SourceMap.toPositions` (`callHierarchy.ts` lines 334-336):
`(sourceRange[1] - sourceRange[0]) - (generatedRange[1] - generatedRange[0])`,
the same expression for both translation directions. -/
def rightAdjust (m : Mapping D) : Int :=
  (m.sourceRange.stop - m.sourceRange.start) - (m.generatedRange.stop - m.generatedRange.start)

/-- `SourceMap.toPositions` (`callHierarchy.ts` lines 319-339): iterate
`matcing`, skip entries rejected by the filter, apply the right-bias
adjustment, yield the translated position with its mapping. -/
def toPositions (sm : SourceMap D) (pos : Int) (filter : D → Bool) (frm : RangeKey) (toKey : RangeKey) (baseOffset : Bias) : List (Int × Mapping D) :=
  (matcing sm pos frm toKey baseOffset.isRight).filterMap fun p =>
    if filter p.2.data then
      some (if baseOffset.isRight then (p.1 + rightAdjust p.2, p.2) else p)
    else none

/-- `SourceMap.toSourcePositionsBase`. -/
def toSourcePositionsBase (sm : SourceMap D) (pos : Int) (filter : D → Bool) (baseOffset : Bias) : List (Int × Mapping D) :=
  toPositions sm pos filter .generatedRange .sourceRange baseOffset

/-- `SourceMap.toGeneratedPositionsBase`. -/
def toGeneratedPositionsBase (sm : SourceMap D) (pos : Int) (filter : D → Bool) (baseOffset : Bias) : List (Int × Mapping D) :=
  toPositions sm pos filter .sourceRange .generatedRange baseOffset

/-- `SourceMap.toSourcePositions`: the position components of the base
sequence. -/
def toSourcePositions (sm : SourceMap D) (pos : Int) (filter : D → Bool) (baseOffset : Bias) : List Int :=
  (toSourcePositionsBase sm pos filter baseOffset).map (·.1)

/-- `SourceMap.toGeneratedPositions`. -/
def toGeneratedPositions (sm : SourceMap D) (pos : Int) (filter : D → Bool) (baseOffset : Bias) : List Int :=
  (toGeneratedPositionsBase sm pos filter baseOffset).map (·.1)

/-- `SourceMap.toSourcePosition`: first yield of the plural form
(`for ... return` over the generator). -/
def toSourcePosition (sm : SourceMap D) (pos : Int) (filter : D → Bool) (baseOffset : Bias) : Option Int :=
  (toSourcePositions sm pos filter baseOffset).head?

/-- `SourceMap.toGeneratedPosition`. -/
def toGeneratedPosition (sm : SourceMap D) (pos : Int) (filter : D → Bool) (baseOffset : Bias) : Option Int :=
  (toGeneratedPositions sm pos filter baseOffset).head?

/-- `SourceMap.matchSourcePosition` (`callHierarchy.ts` lines 341-346):
translate a generated offset to a source offset through one given mapping. -/
def matchSourcePosition (pos : Int) (m : Mapping D) (baseOffset : Bias) : Option Int :=
  matchOffset pos m.generatedRange m.sourceRange baseOffset.isRight

/-- `SourceMap.matchGeneratedPosition` (`callHierarchy.ts` lines 348-353). -/
def matchGeneratedPosition (pos : Int) (m : Mapping D) (baseOffset : Bias) : Option Int :=
  matchOffset pos m.sourceRange m.generatedRange baseOffset.isRight

/-- The direction selector for `toRanges`: which base-position API and
which single-mapping matcher the source passes by name
(`'toSourcePositionsBase'`/`'matchSourcePosition'` or the generated pair). -/
inductive MapDir where
  | toSrc
  | toGen
deriving DecidableEq, Repr

def basePositions (sm : SourceMap D) (dir : MapDir) (pos : Int) (filter : D → Bool) (b : Bias) : List (Int × Mapping D) :=
  match dir with
  | .toSrc => toSourcePositionsBase sm pos filter b
  | .toGen => toGeneratedPositionsBase sm pos filter b

def matchEnd (dir : MapDir) (pos : Int) (m : Mapping D) : Option Int :=
  match dir with
  | .toSrc => matchSourcePosition pos m .right
  | .toGen => matchGeneratedPosition pos m .right

/-- Step 1 of `SourceMap.toRanges` (`callHierarchy.ts` lines 262-283):
for each start match (left bias), resolve the range end inside the same
mapping with right bias; a successful pair is yielded immediately. -/
def toRangesStep1 (sm : SourceMap D) (rng : Rng) (filter : D → Bool) (dir : MapDir) : List Rng :=
  (basePositions sm dir rng.start filter .left).filterMap fun p =>
    (matchEnd dir rng.stop p.2).map fun e => Rng.mk p.1 e

/-- `SourceMap.toRanges`: the step-1 yields, followed by the step-2
cross-entry fallback, which pairs every failed start match with every
right-bias match of the range end anywhere in the table.  The source
yields the step-2 pairs unconditionally — there is no inversion check. -/
def toRanges (sm : SourceMap D) (rng : Rng) (filter : D → Bool) (dir : MapDir) : List Rng :=
  let startMatches := basePositions sm dir rng.start filter .left
  let failed := startMatches.filter fun p => (matchEnd dir rng.stop p.2).isNone
  let endMatches := basePositions sm dir rng.stop filter .right
  toRangesStep1 sm rng filter dir ++ failed.flatMap fun p => endMatches.map fun q => Rng.mk p.1 q.1

/-- `SourceMap.toSourceRanges`. -/
def toSourceRanges (sm : SourceMap D) (rng : Rng) (filter : D → Bool) : List Rng :=
  toRanges sm rng filter .toSrc

/-- `SourceMap.toGeneratedRanges`. -/
def toGeneratedRanges (sm : SourceMap D) (rng : Rng) (filter : D → Bool) : List Rng :=
  toRanges sm rng filter .toGen

/-- `SourceMap.toSourceRange`: first yield of `toSourceRanges`. -/
def toSourceRange (sm : SourceMap D) (rng : Rng) (filter : D → Bool) : Option Rng :=
  (toSourceRanges sm rng filter).head?

/-- `SourceMap.toGeneratedRange`. -/
def toGeneratedRange (sm : SourceMap D) (rng : Rng) (filter : D → Bool) : Option Rng :=
  (toGeneratedRanges sm rng filter).head?

/-! Helper lemmas about the offset matcher. -/

theorem matchOffset_eq_some {pos : Int} {frmR toR : Rng} {b : Bool} {o : Int} :
    matchOffset pos frmR toR b = some o ↔
      (frmR.start ≤ pos ∧ pos ≤ frmR.stop) ∧
      o = toR.start + (pos - frmR.start) ∧
      toR.start ≤ o ∧ o ≤ toR.stop := by
  unfold matchOffset
  by_cases h1 : frmR.start ≤ pos ∧ pos ≤ frmR.stop
  · simp only [h1, if_true, true_and]
    by_cases h2 : toR.start ≤ toR.start + (pos - frmR.start) ∧
        toR.start + (pos - frmR.start) ≤ toR.stop
    · simp only [h2, if_true]
      constructor
      · rintro h
        cases h
        exact ⟨rfl, h2⟩
      · rintro ⟨rfl, _⟩
        rfl
    · simp only [h2, if_false]
      constructor
      · rintro h
        cases h
      · rintro ⟨rfl, h⟩
        exact absurd h h2
  · simp only [h1, if_false, false_and]
    constructor
    · rintro h
      cases h
    · rintro h
      exact h.elim

theorem mem_matcing {sm : SourceMap D} {pos : Int} {frm toKey : RangeKey} {b : Bool}
    {p : Int × Mapping D} :
    p ∈ matcing sm pos frm toKey b ↔
      p.2 ∈ sm.mappings ∧ matchOffset pos (p.2.rng frm) (p.2.rng toKey) b = some p.1 := by
  unfold matcing
  rw [List.mem_filterMap]
  constructor
  · rintro ⟨mp, hmp, h⟩
    rcases ho : matchOffset pos (mp.rng frm) (mp.rng toKey) b with _ | o
    · rw [ho] at h
      cases h
    · rw [ho] at h
      injection h with h
      subst h
      exact ⟨hmp, ho⟩
  · rintro ⟨hmp, ho⟩
    exact ⟨p.2, hmp, by rw [ho]; rfl⟩

theorem mem_toPositions {sm : SourceMap D} {pos : Int} {f : D → Bool}
    {frm toKey : RangeKey} {b : Bias} {q : Int × Mapping D} :
    q ∈ toPositions sm pos f frm toKey b ↔
      ∃ o, q.2 ∈ sm.mappings ∧ matchOffset pos (q.2.rng frm) (q.2.rng toKey) b.isRight = some o ∧
        f q.2.data = true ∧
        q.1 = o + (if b.isRight then rightAdjust q.2 else 0) := by
  unfold toPositions
  rw [List.mem_filterMap]
  rcases b with _ | _ <;> simp only [Bias.isRight, if_true, if_false, Bool.false_eq_true] <;>
    constructor
  · rintro ⟨p, hp, h⟩
    rw [mem_matcing] at hp
    by_cases hf : f p.2.data = true
    · rw [if_pos hf] at h
      injection h with h
      subst h
      exact ⟨p.1, hp.1, hp.2, hf, (add_zero _).symm⟩
    · rw [if_neg hf] at h
      cases h
  · rintro ⟨o, hm, ho, hf, hq⟩
    refine ⟨(o, q.2), ?_, ?_⟩
    · rw [mem_matcing]
      exact ⟨hm, ho⟩
    · rw [if_pos hf]
      rcases q with ⟨q1, q2⟩
      simp only at hq
      rw [hq, add_zero]
  · rintro ⟨p, hp, h⟩
    rw [mem_matcing] at hp
    by_cases hf : f p.2.data = true
    · rw [if_pos hf] at h
      injection h with h
      subst h
      exact ⟨p.1, hp.1, hp.2, hf, rfl⟩
    · rw [if_neg hf] at h
      cases h
  · rintro ⟨o, hm, ho, hf, hq⟩
    refine ⟨(o, q.2), ?_, ?_⟩
    · rw [mem_matcing]
      exact ⟨hm, ho⟩
    · rw [if_pos hf]
      rcases q with ⟨q1, q2⟩
      simp only at hq
      rw [hq]

/-- C3: for every mapping entry and every offset `k` strictly inside its
source-side range, translating `k` source-to-generated through that entry
(`matchGeneratedPosition`) and then translating the result
generated-to-source through the same entry (`matchSourcePosition`) returns
`k`. -/
theorem c3_roundtrip {D : Type} (m : Mapping D) (k g : Int)
    (h1 : m.sourceRange.start < k) (h2 : k < m.sourceRange.stop)
    (hfwd : matchGeneratedPosition k m .left = some g) :
    matchSourcePosition g m .left = some k := by
  unfold matchGeneratedPosition at hfwd
  unfold matchSourcePosition
  rw [matchOffset_eq_some] at hfwd
  rw [matchOffset_eq_some]
  obtain ⟨⟨ha, hb⟩, rfl, hc, hd⟩ := hfwd
  refine ⟨⟨hc, hd⟩, ?_, ?_, ?_⟩ <;> omega

/-- Witness for C3 at the entry `sourceRange [0,2) → generatedRange [5,7)`
and offset `1`. -/
theorem c3_roundtrip_witness :
    matchSourcePosition 6 (Mapping.mk ⟨0, 2⟩ ⟨5, 7⟩ (0 : Nat)) .left = some 1 :=
  c3_roundtrip (Mapping.mk ⟨0, 2⟩ ⟨5, 7⟩ (0 : Nat)) 1 6 (by decide) (by decide) (by decide)

/-- C9: each singular lookup returns exactly the head of its plural
counterpart, absent when that sequence is empty — in the source every
singular operation is literally `for (const r of plural) return r`. -/
theorem c9_singular_head {D : Type} (sm : SourceMap D) (rng : Rng) (pos : Int)
    (f : D → Bool) (b : Bias) :
    toSourceRange sm rng f = (toSourceRanges sm rng f).head? ∧
    toGeneratedRange sm rng f = (toGeneratedRanges sm rng f).head? ∧
    toSourcePosition sm pos f b = (toSourcePositions sm pos f b).head? ∧
    toGeneratedPosition sm pos f b = (toGeneratedPositions sm pos f b).head? :=
  ⟨rfl, rfl, rfl, rfl⟩

/-- C1 counterexample: on the two-entry table
`[0,2)←[100,102)`, `[10,12)←[0,2)` (source ← generated), the generated
range `[1,11)` resolves its start through the first entry (source offset
101) but its end only through the step-2 cross-entry fallback (source
offset 1); the fallback range `[101,1)` is inverted and is yielded, not
discarded. -/
theorem c1_counterexample :
    toSourceRanges
        (SourceMap.mk ⟨"s", "x"⟩ ⟨"g", "y"⟩
          [Mapping.mk ⟨100, 102⟩ ⟨0, 2⟩ (0 : Nat), Mapping.mk ⟨0, 2⟩ ⟨10, 12⟩ 1])
        ⟨1, 11⟩ (fun _ => true) = [⟨101, 1⟩] ∧
    ((101 : Int), (1 : Int)).2 < ((101 : Int), (1 : Int)).1 := by
  constructor
  · decide
  · decide

/-- C1 (amended): every range yielded by step 1 of `toRanges` (both
endpoints resolved inside one mapping entry) satisfies `start ≤ stop` for
any well-formed input range; the step-2 cross-entry fallback performs no
inversion check. -/
theorem c1_step1_not_inverted {D : Type} (sm : SourceMap D) (rng : Rng)
    (f : D → Bool) (dir : MapDir) (hr : rng.start ≤ rng.stop) :
    ∀ r ∈ toRangesStep1 sm rng f dir, r.start ≤ r.stop := by
  intro r hrm
  unfold toRangesStep1 at hrm
  rw [List.mem_filterMap] at hrm
  obtain ⟨p, hp, hmap⟩ := hrm
  rcases he : matchEnd dir rng.stop p.2 with _ | e
  · rw [he] at hmap
    cases hmap
  · rw [he] at hmap
    injection hmap with hmap
    subst hmap
    show p.1 ≤ e
    cases dir
    · simp only [basePositions, toSourcePositionsBase] at hp
      rw [mem_toPositions] at hp
      obtain ⟨o, _, ho, _, hpo⟩ := hp
      simp only [Bias.isRight, Bool.false_eq_true, if_false, add_zero, Mapping.rng] at hpo ho
      simp only [matchEnd, matchSourcePosition, Bias.isRight] at he
      rw [matchOffset_eq_some] at ho he
      obtain ⟨_, ho2, _, _⟩ := ho
      obtain ⟨_, he2, _, _⟩ := he
      omega
    · simp only [basePositions, toGeneratedPositionsBase] at hp
      rw [mem_toPositions] at hp
      obtain ⟨o, _, ho, _, hpo⟩ := hp
      simp only [Bias.isRight, Bool.false_eq_true, if_false, add_zero, Mapping.rng] at hpo ho
      simp only [matchEnd, matchGeneratedPosition, Bias.isRight] at he
      rw [matchOffset_eq_some] at ho he
      obtain ⟨_, ho2, _, _⟩ := ho
      obtain ⟨_, he2, _, _⟩ := he
      omega

/-- Witness for the amended C1 on the entry `[0,2) → [10,12)` and the
exactly covered range `[0,2)`. -/
theorem c1_step1_not_inverted_witness :
    (Rng.mk 10 12).start ≤ (Rng.mk 10 12).stop :=
  c1_step1_not_inverted
    (SourceMap.mk ⟨"s", "x"⟩ ⟨"g", "y"⟩ [Mapping.mk ⟨0, 2⟩ ⟨10, 12⟩ (0 : Nat)])
    ⟨0, 2⟩ (fun _ => true) .toGen (by decide) ⟨10, 12⟩ (by decide)

/-- C2 counterexample: on the adjacent entries `[0,2)→[10,13)` and
`[2,4)→[20,22)` sharing the boundary `2`, `toGeneratedPosition` with
`right` bias resolves through the first entry of the table — the one whose
origin range ENDS at the boundary (source start 0) — not through the entry
starting there; the returned offset `11` does not even lie inside the
starting entry's generated range `[20,22)`. -/
theorem c2_counterexample :
    (toGeneratedPositionsBase
        (SourceMap.mk ⟨"s", "x"⟩ ⟨"g", "y"⟩
          [Mapping.mk ⟨0, 2⟩ ⟨10, 13⟩ (0 : Nat), Mapping.mk ⟨2, 4⟩ ⟨20, 22⟩ 1])
        2 (fun _ => true) .right).head? = some (11, Mapping.mk ⟨0, 2⟩ ⟨10, 13⟩ (0 : Nat)) ∧
    (Mapping.mk ⟨0, 2⟩ ⟨10, 13⟩ (0 : Nat)).sourceRange.stop = 2 ∧
    (Mapping.mk ⟨0, 2⟩ ⟨10, 13⟩ (0 : Nat)).sourceRange.start ≠ 2 ∧
    (Mapping.mk ⟨2, 4⟩ ⟨20, 22⟩ (1 : Nat)).sourceRange.start = 2 ∧
    toGeneratedPosition
        (SourceMap.mk ⟨"s", "x"⟩ ⟨"g", "y"⟩
          [Mapping.mk ⟨0, 2⟩ ⟨10, 13⟩ (0 : Nat), Mapping.mk ⟨2, 4⟩ ⟨20, 22⟩ 1])
        2 (fun _ => true) .right = some 11 ∧
    ¬((20 : Int) ≤ 11 ∧ (11 : Int) ≤ 22) := by
  refine ⟨by decide, by decide, by decide, by decide, by decide, by decide⟩

/-- C2 (amended): at a boundary `B` ending the first table entry, BOTH
biases resolve through that first entry (closed containment, table order
as tie-break); the bias only selects the translated offset — `left`
anchors at the entry's range starts, `right` additionally applies the
source-minus-generated length adjustment of `toPositions`. -/
theorem c2_first_entry_resolution {D : Type} (doc1 doc2 : TextDoc)
    (e1 e2 : Mapping D) (f : D → Bool) (B : Int)
    (hstop : e1.sourceRange.stop = B) (hstart : e1.sourceRange.start ≤ B)
    (hf : f e1.data = true)
    (hin : e1.generatedRange.start + (B - e1.sourceRange.start) ≤ e1.generatedRange.stop) :
    ∀ b : Bias,
      (toGeneratedPositionsBase (SourceMap.mk doc1 doc2 [e1, e2]) B f b).head? =
        some (e1.generatedRange.start + (B - e1.sourceRange.start) +
          (if b.isRight then rightAdjust e1 else 0), e1) := by
  intro b
  have h1 : matchOffset B e1.sourceRange e1.generatedRange b.isRight =
      some (e1.generatedRange.start + (B - e1.sourceRange.start)) := by
    rw [matchOffset_eq_some]
    exact ⟨⟨hstart, by omega⟩, rfl, by omega, hin⟩
  simp only [toGeneratedPositionsBase, toPositions, matcing, List.filterMap_cons, Mapping.rng]
  rw [h1]
  cases b <;> simp [hf, Bias.isRight]

/-- `TeleportMappingData` of `@volar/language-core`: two capability sets,
one per traversal direction, attached to a teleport entry whose
`sourceRange` is the spec's `rangeA` and whose `generatedRange` is
`rangeB`.  Capabilities are opaque to the mapping arithmetic. -/
structure TeleportData (C : Type) where
  toSourceCapabilities : C
  toGenedCapabilities : C
deriving DecidableEq, Repr

/-- `TeleportSourceMap.findTeleports` (`callHierarchy.ts` lines 377-384):
generated-direction matches carry `toGenedCapabilities`, source-direction
matches carry `toSourceCapabilities`; both document arguments are the same
document. -/
def findTeleports (sm : SourceMap (TeleportData C)) (start : Int) : List (Int × C) :=
  ((toGeneratedPositionsBase sm start (fun _ => true) .left).map fun p =>
    (p.1, p.2.data.toGenedCapabilities)) ++
  ((toSourcePositionsBase sm start (fun _ => true) .left).map fun p =>
    (p.1, p.2.data.toSourceCapabilities))

/-- C4 counterexample: for the unequal-length teleport entry
`rangeA [0,4] ↔ rangeB [10,12]`, the position `3` lies inside `rangeA`
yet `findTeleports` yields nothing at all — the start-anchored
translation `13` falls outside `rangeB`, so no position inside `rangeB`
with the A-to-B capability set is produced. -/
theorem c4_counterexample :
    ((0 : Int) ≤ 3 ∧ (3 : Int) ≤ 4) ∧
    findTeleports (SourceMap.mk ⟨"t", "z"⟩ ⟨"t", "z"⟩
        [Mapping.mk ⟨0, 4⟩ ⟨10, 12⟩ (TeleportData.mk (7 : Nat) 9)]) 3 = [] :=
  ⟨by decide, by decide⟩

/-- C4 (amended): every pair yielded by `findTeleports` carries exactly
the capability set of the direction traversed — a generated-direction
yield pairs a position inside the entry's `rangeB`
(= `generatedRange`) with that entry's A-to-B set
(`toGenedCapabilities`) and the queried position lies inside its
`rangeA` (= `sourceRange`), and symmetrically with the B-to-A set
(`toSourceCapabilities`), never the opposite direction's set; and
conversely, an entry yields the translated position for a direction
exactly when the start-anchored linear translation lands inside the
target range — automatic for equal-length ranges, while an
unequal-length entry can yield nothing for a position inside `rangeA`. -/
theorem c4_teleport_directions {C : Type} (d1 d2 : TextDoc)
    (ms : List (Mapping (TeleportData C))) (pos : Int) :
    (∀ p c, (p, c) ∈ findTeleports (SourceMap.mk d1 d2 ms) pos →
      (∃ m ∈ ms, c = m.data.toGenedCapabilities ∧
        m.sourceRange.start ≤ pos ∧ pos ≤ m.sourceRange.stop ∧
        m.generatedRange.start ≤ p ∧ p ≤ m.generatedRange.stop ∧
        p = m.generatedRange.start + (pos - m.sourceRange.start)) ∨
      (∃ m ∈ ms, c = m.data.toSourceCapabilities ∧
        m.generatedRange.start ≤ pos ∧ pos ≤ m.generatedRange.stop ∧
        m.sourceRange.start ≤ p ∧ p ≤ m.sourceRange.stop ∧
        p = m.sourceRange.start + (pos - m.generatedRange.start))) ∧
    (∀ m ∈ ms, m.sourceRange.start ≤ pos → pos ≤ m.sourceRange.stop →
      m.generatedRange.start + (pos - m.sourceRange.start) ≤ m.generatedRange.stop →
      (m.generatedRange.start + (pos - m.sourceRange.start), m.data.toGenedCapabilities) ∈
        findTeleports (SourceMap.mk d1 d2 ms) pos) ∧
    (∀ m ∈ ms, m.generatedRange.start ≤ pos → pos ≤ m.generatedRange.stop →
      m.sourceRange.start + (pos - m.generatedRange.start) ≤ m.sourceRange.stop →
      (m.sourceRange.start + (pos - m.generatedRange.start), m.data.toSourceCapabilities) ∈
        findTeleports (SourceMap.mk d1 d2 ms) pos) := by
  refine ⟨?_, ?_, ?_⟩
  · intro p c hpc
    unfold findTeleports at hpc
    rw [List.mem_append] at hpc
    rcases hpc with h | h
    · rw [List.mem_map] at h
      obtain ⟨q, hq, heq⟩ := h
      injection heq with hp hc
      unfold toGeneratedPositionsBase at hq
      rw [mem_toPositions] at hq
      obtain ⟨o, hmem, ho, _, hq1⟩ := hq
      simp only [Mapping.rng, Bias.isRight, Bool.false_eq_true, if_false, add_zero] at ho hq1
      rw [matchOffset_eq_some] at ho
      obtain ⟨⟨hc1, hc2⟩, hoe, hb1, hb2⟩ := ho
      refine Or.inl ⟨q.2, hmem, hc.symm, hc1, hc2, ?_, ?_, ?_⟩ <;> omega
    · rw [List.mem_map] at h
      obtain ⟨q, hq, heq⟩ := h
      injection heq with hp hc
      unfold toSourcePositionsBase at hq
      rw [mem_toPositions] at hq
      obtain ⟨o, hmem, ho, _, hq1⟩ := hq
      simp only [Mapping.rng, Bias.isRight, Bool.false_eq_true, if_false, add_zero] at ho hq1
      rw [matchOffset_eq_some] at ho
      obtain ⟨⟨hc1, hc2⟩, hoe, hb1, hb2⟩ := ho
      refine Or.inr ⟨q.2, hmem, hc.symm, hc1, hc2, ?_, ?_, ?_⟩ <;> omega
  · intro m hm h1 h2 h3
    unfold findTeleports
    rw [List.mem_append]
    left
    rw [List.mem_map]
    refine ⟨(m.generatedRange.start + (pos - m.sourceRange.start), m), ?_, rfl⟩
    unfold toGeneratedPositionsBase
    rw [mem_toPositions]
    refine ⟨m.generatedRange.start + (pos - m.sourceRange.start), hm, ?_, rfl, ?_⟩
    · simp only [Mapping.rng, Bias.isRight]
      rw [matchOffset_eq_some]
      exact ⟨⟨h1, h2⟩, rfl, by omega, h3⟩
    · simp [Bias.isRight]
  · intro m hm h1 h2 h3
    unfold findTeleports
    rw [List.mem_append]
    right
    rw [List.mem_map]
    refine ⟨(m.sourceRange.start + (pos - m.generatedRange.start), m), ?_, rfl⟩
    unfold toSourcePositionsBase
    rw [mem_toPositions]
    refine ⟨m.sourceRange.start + (pos - m.generatedRange.start), hm, ?_, rfl, ?_⟩
    · simp only [Mapping.rng, Bias.isRight]
      rw [matchOffset_eq_some]
      exact ⟨⟨h1, h2⟩, rfl, by omega, h3⟩
    · simp [Bias.isRight]

/-- Witness for the amended C4: the equal-length teleport entry
`[0,2) ↔ [10,12)` with B-to-A capability `7` and A-to-B capability `9`,
queried at `1` (inside `rangeA`) and at `11` (inside `rangeB`). -/
theorem c4_teleport_directions_witness :
    ((11 : Int), (9 : Nat)) ∈
      findTeleports (SourceMap.mk ⟨"t", "z"⟩ ⟨"t", "z"⟩
        [Mapping.mk ⟨0, 2⟩ ⟨10, 12⟩ (TeleportData.mk (7 : Nat) 9)]) 1 ∧
    ((1 : Int), (7 : Nat)) ∈
      findTeleports (SourceMap.mk ⟨"t", "z"⟩ ⟨"t", "z"⟩
        [Mapping.mk ⟨0, 2⟩ ⟨10, 12⟩ (TeleportData.mk (7 : Nat) 9)]) 11 := by
  constructor
  · have h := (c4_teleport_directions (C := Nat) ⟨"t", "z"⟩ ⟨"t", "z"⟩
      [Mapping.mk ⟨0, 2⟩ ⟨10, 12⟩ (TeleportData.mk 7 9)] 1).2.1
      (Mapping.mk ⟨0, 2⟩ ⟨10, 12⟩ (TeleportData.mk 7 9))
      (by decide) (by decide) (by decide) (by decide)
    simpa using h
  · have h := (c4_teleport_directions (C := Nat) ⟨"t", "z"⟩ ⟨"t", "z"⟩
      [Mapping.mk ⟨0, 2⟩ ⟨10, 12⟩ (TeleportData.mk 7 9)] 11).2.2
      (Mapping.mk ⟨0, 2⟩ ⟨10, 12⟩ (TeleportData.mk 7 9))
      (by decide) (by decide) (by decide) (by decide)
    simpa using h

/-- A call-hierarchy item, reduced to the fields the feature code reads:
its document, display name, full range and selection range. -/
structure CallHierarchyItem where
  uri : String
  name : String
  rng : Rng
  selectionRange : Rng
deriving DecidableEq, Repr

/-- `path.basename` over posix paths as used for the display-name rewrite
(uris are identified with their paths, `shared.getPathOfUri` being a pure
scheme strip external to the mapping logic). -/
def basename (p : String) : String :=
  ((p.splitOn "/").getLast?).getD p

/-- `transformCallHierarchyItem` (`callHierarchy.ts` lines 176-214): no
map means "not a virtual file" and the item passes through; an
untraceable `range` falls back to the whole source document; an
untraceable `selectionRange` drops the item (`return` with no value); the
auxiliary ranges are individually traced and the failures filtered out
(`shared.notEmpty`). -/
def transformCallHierarchyItem (getMapByUri : String → Option (SourceMap PD))
    (tsItem : CallHierarchyItem) (tsRanges : List Rng) :
    Option (CallHierarchyItem × List Rng) :=
  match getMapByUri tsItem.uri with
  | none => some (tsItem, tsRanges)
  | some map =>
    let range := match toSourceRange map tsItem.rng (fun _ => true) with
      | some r => r
      | none => Rng.mk 0 (map.sourceDocument.text.length : Int)
    match toSourceRange map tsItem.selectionRange (fun _ => true) with
    | none => none
    | some selectionRange =>
      let vueRanges := tsRanges.filterMap fun r => toSourceRange map r (fun _ => true)
      some
        ({ uri := map.sourceDocument.uri,
           name := if tsItem.name = basename map.mappedDocument.uri then
             basename map.sourceDocument.uri else tsItem.name,
           rng := range,
           selectionRange := selectionRange }, vueRanges)

/-- C5: an item whose `selectionRange` cannot be traced back through the
owning SourceMap is dropped (the transform yields no item, and being a
total function it raises nothing). -/
theorem c5_drop_untraceable {PD : Type} (getMapByUri : String → Option (SourceMap PD))
    (tsItem : CallHierarchyItem) (tsRanges : List Rng) (map : SourceMap PD)
    (hmap : getMapByUri tsItem.uri = some map)
    (hsel : toSourceRange map tsItem.selectionRange (fun _ => true) = none) :
    transformCallHierarchyItem getMapByUri tsItem tsRanges = none := by
  unfold transformCallHierarchyItem
  rw [hmap]
  simp only [hsel]

/-- Witness for C5: a virtual-file item over an empty mapping table. -/
theorem c5_drop_untraceable_witness :
    transformCallHierarchyItem
      (fun _ => some (SourceMap.mk ⟨"s", "ab"⟩ ⟨"g", "cd"⟩ ([] : List (Mapping Nat))))
      ⟨"g", "n", ⟨0, 1⟩, ⟨0, 1⟩⟩ [] = none :=
  c5_drop_untraceable _ ⟨"g", "n", ⟨0, 1⟩, ⟨0, 1⟩⟩ []
    (SourceMap.mk ⟨"s", "ab"⟩ ⟨"g", "cd"⟩ ([] : List (Mapping Nat))) rfl (by decide)

/-- Witness for the amended C2 on adjacent entries `[0,2)→[10,12)` and
`[2,4)→[20,22)` at boundary `2` with left bias. -/
theorem c2_first_entry_resolution_witness :
    (toGeneratedPositionsBase
        (SourceMap.mk ⟨"s", "x"⟩ ⟨"g", "y"⟩
          [Mapping.mk ⟨0, 2⟩ ⟨10, 12⟩ (5 : Nat), Mapping.mk ⟨2, 4⟩ ⟨20, 22⟩ 6])
        2 (fun _ => true) .left).head? =
      some ((10 : Int) + (2 - 0) + (if Bias.left.isRight then
        rightAdjust (Mapping.mk ⟨0, 2⟩ ⟨10, 12⟩ (5 : Nat)) else 0),
        Mapping.mk ⟨0, 2⟩ ⟨10, 12⟩ (5 : Nat)) :=
  c2_first_entry_resolution ⟨"s", "x"⟩ ⟨"g", "y"⟩
    (Mapping.mk ⟨0, 2⟩ ⟨10, 12⟩ (5 : Nat)) (Mapping.mk ⟨2, 4⟩ ⟨20, 22⟩ 6)
    (fun _ => true) 2 (by decide) (by decide) (by decide) (by decide) .left

/-- One incoming call: the calling item plus its call-site ranges
(`from` / `fromRanges` in the protocol shape). -/
structure IncomingCall where
  fromItem : CallHierarchyItem
  fromRanges : List Rng
deriving DecidableEq, Repr

/-- One outgoing call: the called item plus the call-site ranges. -/
structure OutgoingCall where
  toItem : CallHierarchyItem
  fromRanges : List Rng
deriving DecidableEq, Repr

/-- Modelled from the spec: the location-equality key of the `dedupe`
module (not under `src/`): distinct results are told apart by
`(uri, startOffset, endOffset)` (spec 4.5). -/
def locKey (it : CallHierarchyItem) : String × Rng :=
  (it.uri, it.rng)

/-- Modelled from the spec: the auxiliary range lists of location-equal
items are "unioned in source order" (spec 4.5) — the first contribution's
ranges in order, then the second's ranges not already present, in order. -/
def unionRanges (a b : List Rng) : List Rng :=
  a ++ b.filter fun r => decide (r ∉ a)

theorem mem_unionRanges {a b : List Rng} {r : Rng} (h : r ∈ a ∨ r ∈ b) :
    r ∈ unionRanges a b := by
  unfold unionRanges
  rcases h with h | h
  · exact List.mem_append_left _ h
  · by_cases ha : r ∈ a
    · exact List.mem_append_left _ ha
    · refine List.mem_append_right _ ?_
      rw [List.mem_filter]
      exact ⟨h, by simpa using ha⟩

/-- Modelled from the spec: one step of
`dedupe.withCallHierarchyIncomingCalls` — a new item location-equal to an
already kept one merges its call-site ranges into that item instead of
being appended. -/
def mergeIncoming (acc : List IncomingCall) (it : IncomingCall) : List IncomingCall :=
  if acc.any fun k => decide (locKey k.fromItem = locKey it.fromItem) then
    acc.map fun k =>
      if locKey k.fromItem = locKey it.fromItem then
        { k with fromRanges := unionRanges k.fromRanges it.fromRanges }
      else k
  else acc ++ [it]

/-- Modelled from the spec: `dedupe.withCallHierarchyIncomingCalls`
(spec 4.5), folding the merge step over the results in discovery order. -/
def withCallHierarchyIncomingCalls (items : List IncomingCall) : List IncomingCall :=
  items.foldl mergeIncoming []

/-- Modelled from the spec: one step of
`dedupe.withCallHierarchyOutgoingCalls`. -/
def mergeOutgoing (acc : List OutgoingCall) (it : OutgoingCall) : List OutgoingCall :=
  if acc.any fun k => decide (locKey k.toItem = locKey it.toItem) then
    acc.map fun k =>
      if locKey k.toItem = locKey it.toItem then
        { k with fromRanges := unionRanges k.fromRanges it.fromRanges }
      else k
  else acc ++ [it]

/-- Modelled from the spec: `dedupe.withCallHierarchyOutgoingCalls`. -/
def withCallHierarchyOutgoingCalls (items : List OutgoingCall) : List OutgoingCall :=
  items.foldl mergeOutgoing []

/-- C7: when two incoming (resp. outgoing) calls have location-equal
nested caller (resp. callee) items, dedupe keeps one item whose call-site
range list is the union of both contributions in source order, and no
range from either contribution is lost. -/
theorem c7_dedupe_union (a b : IncomingCall) (oa ob : OutgoingCall)
    (h : locKey a.fromItem = locKey b.fromItem)
    (h2 : locKey oa.toItem = locKey ob.toItem) :
    withCallHierarchyIncomingCalls [a, b] =
        [⟨a.fromItem, unionRanges a.fromRanges b.fromRanges⟩] ∧
    (∀ r, r ∈ a.fromRanges ∨ r ∈ b.fromRanges →
      r ∈ unionRanges a.fromRanges b.fromRanges) ∧
    withCallHierarchyOutgoingCalls [oa, ob] =
        [⟨oa.toItem, unionRanges oa.fromRanges ob.fromRanges⟩] ∧
    (∀ r, r ∈ oa.fromRanges ∨ r ∈ ob.fromRanges →
      r ∈ unionRanges oa.fromRanges ob.fromRanges) := by
  refine ⟨?_, fun r hr => mem_unionRanges hr, ?_, fun r hr => mem_unionRanges hr⟩
  · show mergeIncoming (mergeIncoming [] a) b = _
    have h0 : mergeIncoming [] a = [a] := rfl
    rw [h0]
    unfold mergeIncoming
    rw [if_pos ?side]
    case side =>
      simp [h]
    simp [h]
  · show mergeOutgoing (mergeOutgoing [] oa) ob = _
    have h0 : mergeOutgoing [] oa = [oa] := rfl
    rw [h0]
    unfold mergeOutgoing
    rw [if_pos ?side2]
    case side2 =>
      simp [h2]
    simp [h2]

/-- Witness for C7: two incoming and two outgoing calls over the same
location with distinct call-site ranges. -/
theorem c7_dedupe_union_witness :
    withCallHierarchyIncomingCalls
        [⟨⟨"u", "f", ⟨0, 5⟩, ⟨0, 1⟩⟩, [⟨7, 8⟩]⟩, ⟨⟨"u", "f", ⟨0, 5⟩, ⟨2, 3⟩⟩, [⟨9, 10⟩]⟩] =
      [⟨⟨"u", "f", ⟨0, 5⟩, ⟨0, 1⟩⟩, [⟨7, 8⟩, ⟨9, 10⟩]⟩] ∧
    withCallHierarchyOutgoingCalls
        [⟨⟨"u", "g", ⟨1, 6⟩, ⟨1, 2⟩⟩, [⟨7, 8⟩]⟩, ⟨⟨"u", "g", ⟨1, 6⟩, ⟨3, 4⟩⟩, [⟨7, 8⟩]⟩] =
      [⟨⟨"u", "g", ⟨1, 6⟩, ⟨1, 2⟩⟩, [⟨7, 8⟩]⟩] := by
  have h := c7_dedupe_union
    ⟨⟨"u", "f", ⟨0, 5⟩, ⟨0, 1⟩⟩, [⟨7, 8⟩]⟩ ⟨⟨"u", "f", ⟨0, 5⟩, ⟨2, 3⟩⟩, [⟨9, 10⟩]⟩
    ⟨⟨"u", "g", ⟨1, 6⟩, ⟨1, 2⟩⟩, [⟨7, 8⟩]⟩ ⟨⟨"u", "g", ⟨1, 6⟩, ⟨3, 4⟩⟩, [⟨7, 8⟩]⟩
    (by decide) (by decide)
  exact ⟨by simpa using h.1, by simpa using h.2.2.1⟩

/-- `PluginCallHierarchyData` (`callHierarchy.ts` lines 8-15): the payload
attached to prepared items, recording the owning plugin index, the
original (generated-coordinate) item, and the embedded document's uri when
the item came through a source map. -/
structure PluginCallHierarchyData where
  uri : String
  originalItem : CallHierarchyItem
  pluginId : Nat
  map : Option String
deriving DecidableEq, Repr

/-- A plugin's call-hierarchy query surface (`plugin.callHierarchy`),
as an oracle from items to raw `(item, ranges)` results. -/
structure CallHierarchyProvider where
  onIncomingCalls : CallHierarchyItem → List (CallHierarchyItem × List Rng)
  onOutgoingCalls : CallHierarchyItem → List (CallHierarchyItem × List Rng)

/-- A language-service plugin, reduced to the optional call-hierarchy
support consulted by the feature. -/
structure Plugin where
  callHierarchy : Option CallHierarchyProvider

/-- `getIncomingCalls` (`callHierarchy.ts` lines 53-112): no data payload
leaves the accumulator empty; a missing plugin or missing call-hierarchy
support returns the (empty) accumulator directly; with a recorded embedded
document whose map cannot be found nothing is queried; otherwise each raw
call is transformed back to source coordinates, dropped when the transform
fails, and the result deduplicated. -/
def getIncomingCalls {PD : Type} (plugins : List Plugin)
    (getMapByUri : String → Option (SourceMap PD)) (item : CallHierarchyItem)
    (data? : Option PluginCallHierarchyData) : List IncomingCall :=
  match data? with
  | none => withCallHierarchyIncomingCalls []
  | some data =>
    match plugins[data.pluginId]? with
    | none => []
    | some plugin =>
      match plugin.callHierarchy with
      | none => []
      | some provider =>
        let raw : List (CallHierarchyItem × List Rng) :=
          match data.map with
          | some embUri =>
            match getMapByUri embUri with
            | none => []
            | some _ => provider.onIncomingCalls data.originalItem
          | none => provider.onIncomingCalls item
        withCallHierarchyIncomingCalls <| raw.filterMap fun c =>
          (transformCallHierarchyItem getMapByUri c.1 c.2).map fun t =>
            IncomingCall.mk t.1 t.2

/-- `getOutgoingCalls` (`callHierarchy.ts` lines 114-173), symmetric to
`getIncomingCalls` with the callee item (`call.to`). -/
def getOutgoingCalls {PD : Type} (plugins : List Plugin)
    (getMapByUri : String → Option (SourceMap PD)) (item : CallHierarchyItem)
    (data? : Option PluginCallHierarchyData) : List OutgoingCall :=
  match data? with
  | none => withCallHierarchyOutgoingCalls []
  | some data =>
    match plugins[data.pluginId]? with
    | none => []
    | some plugin =>
      match plugin.callHierarchy with
      | none => []
      | some provider =>
        let raw : List (CallHierarchyItem × List Rng) :=
          match data.map with
          | some embUri =>
            match getMapByUri embUri with
            | none => []
            | some _ => provider.onOutgoingCalls data.originalItem
          | none => provider.onOutgoingCalls item
        withCallHierarchyOutgoingCalls <| raw.filterMap fun c =>
          (transformCallHierarchyItem getMapByUri c.1 c.2).map fun t =>
            OutgoingCall.mk t.1 t.2

/-- C10: with an absent data payload, an unresolvable plugin id, a plugin
without call-hierarchy support, or a recorded embedded-document uri with
no source map, `getIncomingCalls` and `getOutgoingCalls` return the empty
list — for every possible plugin oracle, so no plugin query is consulted. -/
theorem c10_early_empty {PD : Type} (plugins : List Plugin)
    (getMapByUri : String → Option (SourceMap PD)) (item : CallHierarchyItem)
    (data? : Option PluginCallHierarchyData)
    (h : data? = none
      ∨ (∃ d, data? = some d ∧ plugins[d.pluginId]? = none)
      ∨ (∃ d p, data? = some d ∧ plugins[d.pluginId]? = some p ∧ p.callHierarchy = none)
      ∨ (∃ d u, data? = some d ∧ d.map = some u ∧ getMapByUri u = none)) :
    getIncomingCalls plugins getMapByUri item data? = [] ∧
    getOutgoingCalls plugins getMapByUri item data? = [] := by
  rcases h with h | ⟨d, hd, hp⟩ | ⟨d, p, hd, hp, hch⟩ | ⟨d, u, hd, hm, hg⟩
  · subst h
    exact ⟨rfl, rfl⟩
  · subst hd
    exact ⟨by simp [getIncomingCalls, hp], by simp [getOutgoingCalls, hp]⟩
  · subst hd
    exact ⟨by simp [getIncomingCalls, hp, hch], by simp [getOutgoingCalls, hp, hch]⟩
  · subst hd
    rcases hpl : plugins[d.pluginId]? with _ | plugin
    · exact ⟨by simp [getIncomingCalls, hpl], by simp [getOutgoingCalls, hpl]⟩
    · rcases hch : plugin.callHierarchy with _ | provider
      · exact ⟨by simp [getIncomingCalls, hpl, hch], by simp [getOutgoingCalls, hpl, hch]⟩
      · constructor
        · simp [getIncomingCalls, hpl, hch, hm, hg, withCallHierarchyIncomingCalls]
        · simp [getOutgoingCalls, hpl, hch, hm, hg, withCallHierarchyOutgoingCalls]

/-- Witness for C10 at the absent-payload input. -/
theorem c10_early_empty_witness :
    getIncomingCalls [] (fun _ => (none : Option (SourceMap Nat)))
        ⟨"u", "f", ⟨0, 1⟩, ⟨0, 1⟩⟩ none = [] ∧
    getOutgoingCalls [] (fun _ => (none : Option (SourceMap Nat)))
        ⟨"u", "f", ⟨0, 1⟩, ⟨0, 1⟩⟩ none = [] :=
  c10_early_empty [] (fun _ => none) ⟨"u", "f", ⟨0, 1⟩, ⟨0, 1⟩⟩ none (Or.inl rfl)

/-- An immutable script snapshot (`ts.IScriptSnapshot`): the `WeakMap`
key identity is modelled by an identity token `id`, distinct for every
distinct snapshot object; `text` is `getText(0, getLength())`. -/
structure Snapshot where
  id : Nat
  text : String
deriving DecidableEq, Repr

/-- A node of the virtual-file tree (`VirtualFile` of
`@volar/language-core`): file name, body text, the mapping table to the
root document, the optional teleport entry list, and the embedded
children.  Mapping metadata is represented by an opaque `Nat` payload. -/
inductive VirtualFile where
  | node (fileName : String) (text : String)
      (mappings : List (Mapping Nat))
      (teleportMappings : Option (List (Mapping (TeleportData Nat))))
      (embedded : List VirtualFile)

def VirtualFile.fileName : VirtualFile → String
  | .node n _ _ _ _ => n

def VirtualFile.text : VirtualFile → String
  | .node _ t _ _ _ => t

def VirtualFile.mappings : VirtualFile → List (Mapping Nat)
  | .node _ _ m _ _ => m

def VirtualFile.teleportMappings : VirtualFile → Option (List (Mapping (TeleportData Nat)))
  | .node _ _ _ tp _ => tp

/-- `forEachEmbeddeds` of `@volar/language-core` as a list: the node
itself, then its children recursively — pre-order traversal. -/
def forEachEmbeddeds : VirtualFile → List VirtualFile
  | .node n t m tp embedded =>
    .node n t m tp embedded :: (embedded.attach.map fun x => forEachEmbeddeds x.1).flatten
termination_by f => sizeOf f
decreasing_by
  simp_wf
  have := List.sizeOf_lt_of_mem x.2
  omega

/-- The versioned registry document created by `getMaps`
(`TextDocument.create(uri, 'vue', version++, snapshot text)`). -/
structure RegDocument where
  uri : String
  languageId : String
  version : Nat
  text : String
deriving DecidableEq, Repr

/-- The cached bundle stored per snapshot by `parseSourceFileDocuments`:
the source document, the virtual-file tree and one embedded source map
(plus optional teleport map) per tree node. -/
structure Bundle where
  fileName : String
  snapId : Nat
  document : RegDocument
  file : VirtualFile
  maps : List (VirtualFile × SourceMap Nat)
  teleports : List (VirtualFile × SourceMap (TeleportData Nat))

/-- The cache-miss branch of `getMaps` (`callHierarchy.ts` lines 440-483):
create the source document from the snapshot text, walk the tree with
`forEachEmbeddeds` creating one virtual document and one
`EmbeddedDocumentSourceMap` per node, plus a `TeleportSourceMap` where the
node has teleport mappings; returns the bundle and the next document
version (the source document and each virtual document consume one
`version++` each). -/
def buildBundle (fileName : String) (snapshot : Snapshot) (rootFile : VirtualFile)
    (v0 : Nat) : Bundle × Nat :=
  let document : RegDocument := ⟨fileName, "vue", v0, snapshot.text⟩
  let files := forEachEmbeddeds rootFile
  let maps := files.map fun f =>
    (f, SourceMap.mk ⟨document.uri, document.text⟩ ⟨f.fileName, f.text⟩ f.mappings)
  let teleports := files.filterMap fun f =>
    f.teleportMappings.map fun tm =>
      (f, SourceMap.mk ⟨f.fileName, f.text⟩ ⟨f.fileName, f.text⟩ tm)
  (⟨fileName, snapshot.id, document, rootFile, maps, teleports⟩, v0 + 1 + files.length)

/-- The mutable state of `parseSourceFileDocuments`: the running document
version counter and the snapshot-keyed cache (`snapshotsToMaps`, a
`WeakMap` keyed by snapshot object identity, here the identity token). -/
structure RegState where
  version : Nat
  cache : List (Nat × Bundle)

/-- `getMaps` (`callHierarchy.ts` lines 436-486): look the snapshot up in
the cache by identity; on a miss build the bundle and store it under the
snapshot's identity. -/
def getMaps (st : RegState) (fileName : String) (snapshot : Snapshot)
    (rootFile : VirtualFile) : Bundle × RegState :=
  match st.cache.lookup snapshot.id with
  | some result => (result, st)
  | none =>
    let bv := buildBundle fileName snapshot rootFile st.version
    (bv.1, ⟨bv.2, (snapshot.id, bv.1) :: st.cache⟩)

/-- C6: the registry cache is keyed by snapshot identity — querying again
with the snapshot just queried returns the identical bundle and leaves the
state (including the version counter) unchanged, so nothing is rebuilt;
and provided every cache entry stored under this snapshot's identity was
built from it (the `WeakMap` guarantee: a distinct snapshot object is a
distinct key), the returned bundle's document text is this snapshot's
text — never another snapshot's. -/
theorem c6_snapshot_cache (st : RegState) (fileName : String) (snap : Snapshot)
    (rootFile : VirtualFile) :
    getMaps (getMaps st fileName snap rootFile).2 fileName snap rootFile =
      getMaps st fileName snap rootFile ∧
    ((∀ b, st.cache.lookup snap.id = some b →
        b.document.text = snap.text ∧ b.snapId = snap.id) →
      (getMaps st fileName snap rootFile).1.document.text = snap.text ∧
      (getMaps st fileName snap rootFile).1.snapId = snap.id) := by
  constructor
  · rcases hl : st.cache.lookup snap.id with _ | b
    · have h1 : getMaps st fileName snap rootFile =
          ((buildBundle fileName snap rootFile st.version).1,
            ⟨(buildBundle fileName snap rootFile st.version).2,
              (snap.id, (buildBundle fileName snap rootFile st.version).1) :: st.cache⟩) := by
        unfold getMaps
        rw [hl]
      rw [h1]
      unfold getMaps
      simp [List.lookup]
    · have h1 : getMaps st fileName snap rootFile = (b, st) := by
        unfold getMaps
        rw [hl]
      rw [h1]
      exact h1
  · intro hOK
    rcases hl : st.cache.lookup snap.id with _ | b
    · have h1 : getMaps st fileName snap rootFile =
          ((buildBundle fileName snap rootFile st.version).1,
            ⟨(buildBundle fileName snap rootFile st.version).2,
              (snap.id, (buildBundle fileName snap rootFile st.version).1) :: st.cache⟩) := by
        unfold getMaps
        rw [hl]
      rw [h1]
      exact ⟨rfl, rfl⟩
    · have h1 : getMaps st fileName snap rootFile = (b, st) := by
        unfold getMaps
        rw [hl]
      rw [h1]
      exact hOK b hl

/-- Witness for C6 on the empty registry state and the snapshot
`⟨1, "hello"⟩`. -/
theorem c6_snapshot_cache_witness :
    (getMaps ⟨0, []⟩ "a.vue" ⟨1, "hello"⟩ (VirtualFile.node "a.vue.ts" "x" [] none [])).1.document.text
        = "hello" ∧
    getMaps (getMaps ⟨0, []⟩ "a.vue" ⟨1, "hello"⟩ (VirtualFile.node "a.vue.ts" "x" [] none [])).2
        "a.vue" ⟨1, "hello"⟩ (VirtualFile.node "a.vue.ts" "x" [] none []) =
      getMaps ⟨0, []⟩ "a.vue" ⟨1, "hello"⟩ (VirtualFile.node "a.vue.ts" "x" [] none []) := by
  have h := c6_snapshot_cache ⟨0, []⟩ "a.vue" ⟨1, "hello"⟩
    (VirtualFile.node "a.vue.ts" "x" [] none [])
  refine ⟨(h.2 ?_).1, h.1⟩
  intro b hb
  cases hb

/-- The reverse index maintained by the embedding provider
(`mapper.getSourceByVirtualFileName`): from an embedded file name to its
owning source `(fileName, snapshot, root virtual file)`. -/
structure Mapper where
  getSourceByVirtualFileName : String → Option (String × Snapshot × VirtualFile)

/-- `getMap` of `parseSourceFileDocuments` (`callHierarchy.ts` lines
422-433): resolve the owning source, fetch/build its bundle, then return
the tree node's map whose file name matches case-insensitively. -/
def getMapReg (mapper : Mapper) (st : RegState) (virtualFileUri : String) :
    Option (SourceMap Nat) × RegState :=
  match mapper.getSourceByVirtualFileName virtualFileUri with
  | none => (none, st)
  | some s =>
    let br := getMaps st s.1 s.2.1 s.2.2
    ((br.1.maps.find? fun fm =>
        fm.1.fileName.toLower == virtualFileUri.toLower).map (·.2), br.2)

/-- `getTeleport` of `parseSourceFileDocuments` (`callHierarchy.ts` lines
410-421). -/
def getTeleportReg (mapper : Mapper) (st : RegState) (virtualFileUri : String) :
    Option (SourceMap (TeleportData Nat)) × RegState :=
  match mapper.getSourceByVirtualFileName virtualFileUri with
  | none => (none, st)
  | some s =>
    let br := getMaps st s.1 s.2.1 s.2.2
    ((br.1.teleports.find? fun fm =>
        fm.1.fileName.toLower == virtualFileUri.toLower).map (·.2), br.2)

/-- The pug→html mapping metadata consulted by the pug services
(`MappingKind` of `baseParse`); hover rejects `EmptyTagCompletion`
entries. -/
inductive MappingKind where
  | Normal
  | EmptyTagCompletion
deriving DecidableEq, Repr, BEq

/-- A parsed pug document, reduced to the source map the hover service
reads (`pugDoc.map`). -/
structure PugDocument where
  map : SourceMap MappingKind

/-- A hover result: contents plus an optional range. -/
structure Hover where
  contents : String
  rng : Option Rng
deriving DecidableEq, Repr

/-- Modelled from the spec: `transformHover` of `@volar/transforms` is not
under `src/`; per spec 4.4 step 3 it rewrites the result's range field back
into source coordinates through the provided mapping function, the range
being dropped when it cannot be traced back. -/
def transformHover (h : Hover) (f : Rng → Option Rng) : Hover :=
  { h with rng := h.rng.bind f }

/-- The pug hover service (`hover.ts` lines 7-22): map the position into
the generated html document filtering out `EmptyTagCompletion` entries —
no correspondence means no result; then query the html hover oracle and
transform its ranges back. -/
def pugHover (doHover : Int → Option Hover) (pugDoc : PugDocument) (pos : Int) :
    Option Hover :=
  match toGeneratedPosition pugDoc.map pos
      (fun data => !(data == MappingKind.EmptyTagCompletion)) .left with
  | none => none
  | some htmlPos =>
    match doHover htmlPos with
    | none => none
    | some htmlResult =>
      some (transformHover htmlResult fun htmlRange =>
        toSourceRange pugDoc.map htmlRange (fun _ => true))

theorem toPositions_all_rejected {sm : SourceMap D} {pos : Int} {f : D → Bool}
    {frm toKey : RangeKey} {b : Bias}
    (h : ∀ mp ∈ sm.mappings, f mp.data = false) :
    toPositions sm pos f frm toKey b = [] := by
  unfold toPositions
  rw [List.filterMap_eq_nil_iff]
  intro p hp
  rw [mem_matcing] at hp
  have hf := h p.2 hp.1
  rw [if_neg]
  simp [hf]

theorem basePositions_all_rejected {sm : SourceMap D} {pos : Int} {f : D → Bool}
    {dir : MapDir} {b : Bias}
    (h : ∀ mp ∈ sm.mappings, f mp.data = false) :
    basePositions sm dir pos f b = [] := by
  cases dir
  · exact toPositions_all_rejected h
  · exact toPositions_all_rejected h

/-- C8: lookups with no accepting mapping entry produce an absent or empty
result, never an error: all position and range operations of `SourceMap`
(all total functions here), the registry's `getMap`/`getTeleport` when the
reverse index knows no owner, and the pug hover service, which returns no
result when the position has no accepted generated correspondence. -/
theorem c8_unmapped_absent :
    (∀ (D : Type) (sm : SourceMap D) (pos : Int) (rng : Rng) (f : D → Bool) (b : Bias),
      (∀ mp ∈ sm.mappings, f mp.data = false) →
      toSourcePosition sm pos f b = none ∧ toGeneratedPosition sm pos f b = none ∧
      toSourcePositions sm pos f b = [] ∧ toGeneratedPositions sm pos f b = [] ∧
      toSourceRange sm rng f = none ∧ toGeneratedRange sm rng f = none ∧
      toSourceRanges sm rng f = [] ∧ toGeneratedRanges sm rng f = []) ∧
    (∀ (mapper : Mapper) (st : RegState) (uri : String),
      mapper.getSourceByVirtualFileName uri = none →
      (getMapReg mapper st uri).1 = none ∧ (getTeleportReg mapper st uri).1 = none) ∧
    (∀ (doHover : Int → Option Hover) (pugDoc : PugDocument) (pos : Int),
      toGeneratedPosition pugDoc.map pos
          (fun data => !(data == MappingKind.EmptyTagCompletion)) .left = none →
      pugHover doHover pugDoc pos = none) := by
  refine ⟨?_, ?_, ?_⟩
  · intro D sm pos rng f b h
    have hsp : toSourcePositionsBase sm pos f b = [] := toPositions_all_rejected h
    have hgp : toGeneratedPositionsBase sm pos f b = [] := toPositions_all_rejected h
    have hrg : ∀ dir, toRanges sm rng f dir = [] := by
      intro dir
      unfold toRanges
      rw [basePositions_all_rejected h, basePositions_all_rejected h]
      unfold toRangesStep1
      rw [basePositions_all_rejected h]
      rfl
    refine ⟨?_, ?_, ?_, ?_, ?_, ?_, ?_, ?_⟩
    · unfold toSourcePosition toSourcePositions
      rw [hsp]
      rfl
    · unfold toGeneratedPosition toGeneratedPositions
      rw [hgp]
      rfl
    · unfold toSourcePositions
      rw [hsp]
      rfl
    · unfold toGeneratedPositions
      rw [hgp]
      rfl
    · unfold toSourceRange toSourceRanges
      rw [hrg]
      rfl
    · unfold toGeneratedRange toGeneratedRanges
      rw [hrg]
      rfl
    · unfold toSourceRanges
      rw [hrg]
    · unfold toGeneratedRanges
      rw [hrg]
  · intro mapper st uri h
    unfold getMapReg getTeleportReg
    rw [h]
    exact ⟨rfl, rfl⟩
  · intro doHover pugDoc pos h
    unfold pugHover
    rw [h]

/-- Witness for C8: a one-entry map with an all-rejecting filter, an empty
reverse index, and a pug document whose only entry is
`EmptyTagCompletion`. -/
theorem c8_unmapped_absent_witness :
    toSourcePosition
        (SourceMap.mk ⟨"s", "x"⟩ ⟨"g", "y"⟩ [Mapping.mk ⟨0, 1⟩ ⟨0, 1⟩ (3 : Nat)])
        0 (fun _ => false) .left = none ∧
    (getMapReg ⟨fun _ => none⟩ ⟨0, []⟩ "v.ts").1 = none ∧
    pugHover (fun _ => some ⟨"h", none⟩)
        ⟨SourceMap.mk ⟨"p", "x"⟩ ⟨"h", "y"⟩
          [Mapping.mk ⟨0, 1⟩ ⟨0, 1⟩ MappingKind.EmptyTagCompletion]⟩ 0 = none := by
  refine ⟨?_, ?_, ?_⟩
  · exact (c8_unmapped_absent.1 Nat
      (SourceMap.mk ⟨"s", "x"⟩ ⟨"g", "y"⟩ [Mapping.mk ⟨0, 1⟩ ⟨0, 1⟩ 3])
      0 ⟨0, 1⟩ (fun _ => false) .left (by decide)).1
  · exact (c8_unmapped_absent.2.1 ⟨fun _ => none⟩ ⟨0, []⟩ "v.ts" rfl).1
  · exact c8_unmapped_absent.2.2 (fun _ => some ⟨"h", none⟩)
      ⟨SourceMap.mk ⟨"p", "x"⟩ ⟨"h", "y"⟩
        [Mapping.mk ⟨0, 1⟩ ⟨0, 1⟩ MappingKind.EmptyTagCompletion]⟩ 0 (by decide)

end Volar
